import Mathlib

/-!
Shallow embedding of `src/bot.py` (class `PRTAlertBot`): the alert-identity
hash, the text renderer `format_alert`, the multi-feed merge and the publish
sequencer of `run`, together with theorems settling the frozen claims.

Strings are modelled as `List Char` (Python `len`/slicing count code points,
as `List.length`/`List.take` do).  Machine words are `Nat` reduced
`% 2 ^ 32` where the hash arithmetic overflows.
-/

namespace PRTBot

/-! ### MD5 (`hashlib.md5`), RFC 1321, over byte lists -/

/-- Reduce to a 32-bit word. -/
def m32 (x : Nat) : Nat := x % 4294967296

/-- Left-rotation of a 32-bit word: low bits move up, the top `n` bits wrap
to the bottom; for `x < 2 ^ 32` the two parts occupy disjoint bit ranges. -/
def rotl32 (x n : Nat) : Nat := x * 2 ^ n % 4294967296 + x / 2 ^ (32 - n)

/-- Bitwise complement of a 32-bit word (all-ones minus the word). -/
def not32 (x : Nat) : Nat := 4294967295 - x

/-- The 64 sine-derived round constants of MD5. -/
def md5K : List Nat :=
  [3614090360, 3905402710, 606105819, 3250441966, 4118548399, 1200080426,
   2821735955, 4249261313, 1770035416, 2336552879, 4294925233, 2304563134,
   1804603682, 4254626195, 2792965006, 1236535329, 4129170786, 3225465664,
   643717713, 3921069994, 3593408605, 38016083, 3634488961, 3889429448,
   568446438, 3275163606, 4107603335, 1163531501, 2850285829, 4243563512,
   1735328473, 2368359562, 4294588738, 2272392833, 1839030562, 4259657740,
   2763975236, 1272893353, 4139469664, 3200236656, 681279174, 3936430074,
   3572445317, 76029189, 3654602809, 3873151461, 530742520, 3299628645,
   4096336452, 1126891415, 2878612391, 4237533241, 1700485571, 2399980690,
   4293915773, 2240044497, 1873313359, 4264355552, 2734768916, 1309151649,
   4149444226, 3174756917, 718787259, 3951481745]

/-- The per-round left-rotation amounts of MD5. -/
def md5S : List Nat :=
  [7, 12, 17, 22, 7, 12, 17, 22, 7, 12, 17, 22, 7, 12, 17, 22,
   5, 9, 14, 20, 5, 9, 14, 20, 5, 9, 14, 20, 5, 9, 14, 20,
   4, 11, 16, 23, 4, 11, 16, 23, 4, 11, 16, 23, 4, 11, 16, 23,
   6, 10, 15, 21, 6, 10, 15, 21, 6, 10, 15, 21, 6, 10, 15, 21]

/-- One of the 64 MD5 operations on the running state `(a, b, c, d)`,
with `M` the current block's sixteen little-endian words. -/
def md5Step (M : List Nat) (st : Nat × Nat × Nat × Nat) (i : Nat) :
    Nat × Nat × Nat × Nat :=
  let (a, b, c, d) := st
  let fg : Nat × Nat :=
    if i < 16 then ((b &&& c) ||| (not32 b &&& d), i)
    else if i < 32 then ((d &&& b) ||| (not32 d &&& c), (5 * i + 1) % 16)
    else if i < 48 then (b ^^^ c ^^^ d, (3 * i + 5) % 16)
    else (c ^^^ (b ||| not32 d), 7 * i % 16)
  let tmp := m32 (a + fg.1 + md5K.getD i 0 + M.getD fg.2 0)
  (d, m32 (b + rotl32 tmp (md5S.getD i 0)), b, c)

/-- Process one 64-byte block: run the 64 operations and add the result
back into the incoming state, word by word. -/
def md5Block (st : Nat × Nat × Nat × Nat) (M : List Nat) :
    Nat × Nat × Nat × Nat :=
  let r := (List.range 64).foldl (md5Step M) st
  (m32 (st.1 + r.1), m32 (st.2.1 + r.2.1), m32 (st.2.2.1 + r.2.2.1),
   m32 (st.2.2.2 + r.2.2.2))

/-- MD5 padding: a 0x80 byte, zeros to 56 mod 64, then the bit length as
eight little-endian bytes (length taken mod `2 ^ 64`). -/
def md5Pad (msg : List Nat) : List Nat :=
  msg ++ [128] ++ List.replicate ((119 - msg.length % 64) % 64) 0 ++
    (List.range 8).map (fun j => 8 * msg.length % 18446744073709551616 / 256 ^ j % 256)

/-- The sixteen little-endian 32-bit words of one 64-byte block. -/
def md5BlockWords (blk : List Nat) : List Nat :=
  (List.range 16).map (fun j =>
    blk.getD (4 * j) 0 + 256 * blk.getD (4 * j + 1) 0 +
      65536 * blk.getD (4 * j + 2) 0 + 16777216 * blk.getD (4 * j + 3) 0)

/-- The MD5 state after absorbing the whole padded message. -/
def md5Words (msg : List Nat) : Nat × Nat × Nat × Nat :=
  let padded := md5Pad msg
  ((List.range (padded.length / 64)).map
      (fun i => ((padded.drop (64 * i)).take 64))).foldl
    (fun st blk => md5Block st (md5BlockWords blk))
    (1732584193, 4023233417, 2562383102, 271733878)

/-- A hex digit as Python's `hexdigest` prints it (lowercase). -/
def hexDig (n : Nat) : Char := if n < 10 then Char.ofNat (48 + n) else Char.ofNat (87 + n)

/-- Two hex digits of one byte. -/
def byteHex (b : Nat) : List Char := [hexDig (b / 16), hexDig (b % 16)]

/-- Eight hex digits of one 32-bit word, bytes little-endian first. -/
def wordHexLE (w : Nat) : List Char :=
  byteHex (w % 256) ++ byteHex (w / 256 % 256) ++ byteHex (w / 65536 % 256) ++
    byteHex (w / 16777216 % 256)

/-- `hashlib.md5(bytes).hexdigest()`: the 32 lowercase hex characters of the
digest. -/
def md5Hex (msg : List Nat) : List Char :=
  let r := md5Words msg
  wordHexLE r.1 ++ wordHexLE r.2.1 ++ wordHexLE r.2.2.1 ++ wordHexLE r.2.2.2

/-- UTF-8 bytes of one character (`str.encode()`). -/
def utf8Bytes (c : Char) : List Nat :=
  let n := c.toNat
  if n < 128 then [n]
  else if n < 2048 then [192 + n / 64, 128 + n % 64]
  else if n < 65536 then [224 + n / 4096, 128 + n / 64 % 64, 128 + n % 64]
  else [240 + n / 262144, 128 + n / 4096 % 64, 128 + n / 64 % 64, 128 + n % 64]

/-- UTF-8 encoding of a string (`str.encode()`). -/
def utf8Encode (s : List Char) : List Nat := (s.map utf8Bytes).flatten

/-! ### Character classes and Python string helpers -/

/-- The ASCII part of regex `\w` (word character). -/
def isWordChar (c : Char) : Bool := c.isAlpha || c.isDigit || c == '_'

/-- The ASCII part of regex `\s` and of the characters `str.strip()` removes. -/
def isSpaceChar (c : Char) : Bool :=
  c == ' ' || c == '\t' || c == '\n' || c == '\r' || c.toNat == 11 || c.toNat == 12

/-- Python `str.strip()`: drop whitespace from both ends. -/
def pstrip (s : List Char) : List Char :=
  ((s.dropWhile isSpaceChar).reverse.dropWhile isSpaceChar).reverse

/-- Python `str.lower()` on ASCII letters; also how `re.IGNORECASE` folds. -/
def lowerL (s : List Char) : List Char := s.map Char.toLower

/-- Python substring test `needle in haystack`. -/
def containsSub (haystack needle : List Char) : Bool :=
  match haystack with
  | [] => needle.isEmpty
  | c :: t => needle.isPrefixOf (c :: t) || containsSub t needle

/-- `str.replace`: replace every non-overlapping occurrence of `pat`,
scanning left to right.  The fuel starts at the text's length and falls by
one per step, while at least one character is consumed, so it never runs
out on the initial call. -/
def replAllGo (pat rep : List Char) : Nat → List Char → List Char
  | _, [] => []
  | 0, s => s
  | fuel + 1, c :: cs =>
    if pat.isPrefixOf (c :: cs) && !pat.isEmpty then
      rep ++ replAllGo pat rep fuel (List.drop (pat.length - 1) cs)
    else c :: replAllGo pat rep fuel cs

/-- Python `text.replace(pat, rep)`. -/
def replAll (pat rep s : List Char) : List Char := replAllGo pat rep s.length s

/-! ### Word-boundary token matching (regex `\btok\b`, alternation, `re.sub`)

Every token the program uses (`OS`, `O/S`, `OSS`, `RED`, `BLUE`, `SILVER`,
`SLVR`, and route ids) starts and ends with a word character, so the `\b`
before a match holds exactly when the previous character is not a word
character (or the match is at the start), and the `\b` after it exactly
when the next character is not a word character (or the match ends the
text). -/

/-- One character of a match, case-insensitively when `ci`. -/
def chEq (ci : Bool) (a b : Char) : Bool := if ci then a.toLower == b.toLower else a == b

/-- Match token `t` at the head of `s`, returning the rest of `s`. -/
def tokHead (ci : Bool) : List Char → List Char → Option (List Char)
  | [], s => some s
  | _ :: _, [] => none
  | t :: ts, c :: cs => if chEq ci t c then tokHead ci ts cs else none

/-- The `\b` after a match: end of text, or a non-word character next. -/
def boundaryAfter : List Char → Bool
  | [] => true
  | c :: _ => !isWordChar c

/-- Try the alternatives in order at the current position (regex alternation
with backtracking): the first token that matches with a trailing `\b` wins.
Returns its replacement and the number of characters consumed. -/
def tryToks (ci : Bool) : List (List Char × List Char) → List Char →
    Option (List Char × Nat)
  | [], _ => none
  | (t, r) :: rest, s =>
    match tokHead ci t s with
    | some after => if boundaryAfter after then some (r, t.length) else tryToks ci rest s
    | none => tryToks ci rest s

/-- `re.sub` over `\b(t₁|t₂|…)\b`: left-to-right, non-overlapping, resuming
after each match; `prevW` tells whether the previous character of the
original text is a word character (so whether `\b` holds here). -/
def subToksGo (ci : Bool) (toks : List (List Char × List Char)) :
    Nat → Bool → List Char → List Char
  | _, _, [] => []
  | 0, _, s => s
  | fuel + 1, prevW, c :: cs =>
    if prevW then c :: subToksGo ci toks fuel (isWordChar c) cs
    else
      match tryToks ci toks (c :: cs) with
      | some (r, k) => r ++ subToksGo ci toks fuel true (List.drop (k - 1) cs)
      | none => c :: subToksGo ci toks fuel (isWordChar c) cs

/-- `re.sub(r'\b(t₁|t₂|…)\b', rep, s)` with the per-token replacements. -/
def subToks (ci : Bool) (toks : List (List Char × List Char)) (s : List Char) :
    List Char := subToksGo ci toks s.length false s

/-- `re.search(r'\b(t₁|t₂|…)\b', s)` as a Boolean. -/
def hasTokGo (ci : Bool) (toks : List (List Char)) : Nat → Bool → List Char → Bool
  | _, _, [] => false
  | 0, _, _ => false
  | fuel + 1, prevW, c :: cs =>
    (!prevW && toks.any (fun t => ((tokHead ci t (c :: cs)).map boundaryAfter).getD false))
      || hasTokGo ci toks fuel (isWordChar c) cs

/-- Whether some alternative matches somewhere with word boundaries. -/
def hasTok (ci : Bool) (toks : List (List Char)) (s : List Char) : Bool :=
  hasTokGo ci toks s.length false s

/-! ### The time regex `\b([0-2]?\d{3})\b(?=\s*[-–]|\s*[ap]|\s*[IO]B)` -/

/-- The lookahead: optional whitespace, then a dash, `a`, `p`, or `IB`/`OB`.
The alternatives' classes hold no whitespace, so greedy `\s*` with
backtracking is the same as skipping the whole whitespace run. -/
def timeCue (s : List Char) : Bool :=
  match s.dropWhile isSpaceChar with
  | [] => false
  | c :: rest =>
    c == '-' || c == '–' || c == 'a' || c == 'p' ||
      ((c == 'I' || c == 'O') && rest.head? == some 'B')

/-- The group with `[0-2]?` empty: three digits, then `\b` and the cue.
`format_time` turns `237` into `2:37`. -/
def tryTime3 : List Char → Option (List Char × Nat)
  | d0 :: d1 :: d2 :: rest =>
    if d0.isDigit && d1.isDigit && d2.isDigit && boundaryAfter rest && timeCue rest then
      some ([d0, ':', d1, d2], 3)
    else none
  | _ => none

/-- A match of the time pattern at this position (`\b` known to hold):
greedily try `[0-2]` plus three digits first, then backtrack to three
digits.  `format_time` turns `1126` into `11:26`. -/
def tryTime (s : List Char) : Option (List Char × Nat) :=
  match s with
  | d0 :: d1 :: d2 :: d3 :: rest =>
    if (d0 == '0' || d0 == '1' || d0 == '2') && d1.isDigit && d2.isDigit && d3.isDigit
        && boundaryAfter rest && timeCue rest then
      some ([d0, d1, ':', d2, d3], 4)
    else tryTime3 s
  | _ => tryTime3 s

/-- The `re.sub` scan for the time pattern (line 154 of `bot.py`). -/
def timeSubGo : Nat → Bool → List Char → List Char
  | _, _, [] => []
  | 0, _, s => s
  | fuel + 1, prevW, c :: cs =>
    if prevW then c :: timeSubGo fuel (isWordChar c) cs
    else
      match tryTime (c :: cs) with
      | some (rep, k) => rep ++ timeSubGo fuel true (List.drop (k - 1) cs)
      | none => c :: timeSubGo fuel (isWordChar c) cs

/-- Add colons to 3–4 digit numbers that look like times. -/
def timeSub (s : List Char) : List Char := timeSubGo s.length false s

/-! ### The route pattern `\b([A-Z]?\d+[A-Z]?)\b` (`re.findall`) -/

/-- After the optional leading uppercase letter (`pre`): a maximal run of
at least one digit, an optional uppercase letter, then `\b`.  No
backtracking case succeeds beyond these: shrinking the digit run leaves a
digit right after, which fails the trailing `\b` and is no uppercase
letter. -/
def routeTokCore (pre rest : List Char) : Option (List Char × Nat) :=
  let ds := rest.takeWhile Char.isDigit
  if ds.isEmpty then none
  else
    match rest.dropWhile Char.isDigit with
    | [] => some (pre ++ ds, pre.length + ds.length)
    | c :: more =>
      if c.isUpper then
        if boundaryAfter more then some (pre ++ ds ++ [c], pre.length + ds.length + 1)
        else none
      else if isWordChar c then none
      else some (pre ++ ds, pre.length + ds.length)

/-- A match of the route pattern at this position (`\b` known to hold):
`[A-Z]?` taken greedily, then the rest of the pattern. -/
def routeTok (s : List Char) : Option (List Char × Nat) :=
  match s with
  | c :: cs => if c.isUpper then routeTokCore [c] cs else routeTokCore [] (c :: cs)
  | [] => routeTokCore [] []

/-- The left-to-right scan of `re.findall` for the route pattern. -/
def routeScanGo : Nat → Bool → List Char → List (List Char)
  | _, _, [] => []
  | 0, _, _ => []
  | fuel + 1, prevW, c :: cs =>
    if prevW then routeScanGo fuel (isWordChar c) cs
    else
      match routeTok (c :: cs) with
      | some (t, k) => t :: routeScanGo fuel true (List.drop (k - 1) cs)
      | none => routeScanGo fuel (isWordChar c) cs

/-- `re.findall(r'\b([A-Z]?\d+[A-Z]?)\b', s)`. -/
def routeFindAll (s : List Char) : List (List Char) := routeScanGo s.length false s

/-- `list(set(routes))`, modelled keeping each element's first occurrence
(Python's set leaves the order unspecified; no claim depends on it). -/
def uniqueKeepFirst (l : List (List Char)) : List (List Char) :=
  l.foldl (fun acc x => if x ∈ acc then acc else acc ++ [x]) []

/-! ### Alerts (`entity` records) and alert identity (`get_alert_hash`) -/

/-- A GTFS alert entity as the program reads it: the feed-assigned `id`, and
the texts of `alert.header_text.translation` and
`alert.description_text.translation`. -/
structure Entity where
  id : String
  headerTexts : List String
  descTexts : List String
deriving DecidableEq

/-- The header string: the first translation's text, else `""`
(lines 60–62 and 109–111 of `bot.py`). -/
def headerOf (e : Entity) : List Char := (e.headerTexts.headD "").data

/-- The description string: the first translation's text, else `""`
(lines 64–66 and 114–116 of `bot.py`). -/
def descOf (e : Entity) : List Char := (e.descTexts.headD "").data

/-- `get_alert_hash` (lines 55–70): the first 16 hex characters of the MD5
of `f"{header}|{description}"`. -/
def get_alert_hash (e : Entity) : List Char :=
  (md5Hex (utf8Encode (headerOf e ++ '|' :: descOf e))).take 16

/-! ### The renderer `format_alert` (lines 99–213), split by step -/

/-- Lines 121–127: inside the combine branch, drop a redundant pre-colon
header part when it is longer than 3 characters and re-occurs
(case-insensitively) after the colon. -/
def stripRedundant (header : List Char) : List Char :=
  if ':' ∈ header then
    let pfx := pstrip (header.takeWhile (fun c => c ≠ ':'))
    let rest := pstrip ((header.dropWhile (fun c => c ≠ ':')).drop 1)
    if containsSub (lowerL rest) (lowerL pfx) && decide (3 < pfx.length) then rest
    else header
  else header

/-- Lines 119–131: combine header and description into the base text. -/
def baseText (header description : List Char) : List Char :=
  if description ≠ [] ∧ description ≠ header then
    stripRedundant header ++ ':' :: ' ' :: description
  else header

/-- Line 134: the literal marker `\n\n` becomes `" - "`, remaining `\n`
markers become spaces, then both ends are stripped. -/
def normText (t : List Char) : List Char :=
  pstrip (replAll "\\n".data " ".data (replAll "\\n\\n".data " - ".data t))

/-- Line 137: `re.search(r'\b(OS|O/S|OSS)\b', text, re.IGNORECASE)`. -/
def oosDetect (t : List Char) : Bool :=
  hasTok true ["OS".data, "O/S".data, "OSS".data] t

/-- Lines 140–142: the three case-insensitive substitutions to
`Out of Service`, in source order. -/
def oosReplace (t : List Char) : List Char :=
  let t1 := subToks true [("OSS".data, "Out of Service".data)] t
  let t2 := subToks true [("O/S".data, "Out of Service".data)] t1
  subToks true [("OS".data, "Out of Service".data)] t2

/-- Lines 157–159: the six literal `IB`/`OB` replacements, in source order. -/
def ibobSub (t : List Char) : List Char :=
  let t1 := replAll " IB ".data " Inbound ".data t
  let t2 := replAll " OB ".data " Outbound ".data t1
  let t3 := replAll "IB:".data "Inbound:".data t2
  let t4 := replAll "OB:".data "Outbound:".data t3
  let t5 := replAll "IB-".data "Inbound-".data t4
  replAll "OB-".data "Outbound-".data t5

/-- Lines 162–164: the color-line emoji substitutions, in source order. -/
def colorSub (t : List Char) : List Char :=
  let t1 := subToks true [("RED".data, "🟥 Red".data)] t
  let t2 := subToks true [("BLUE".data, "🟦 Blue".data)] t1
  subToks true [("SILVER".data, "⬜ Silver".data), ("SLVR".data, "⬜ Silver".data)] t2

/-- The working text after line 154 (`text`): base text normalized, OS
tokens replaced, times formatted.  This is what line 185 falls back to. -/
def text6Of (e : Entity) : List Char :=
  timeSub (oosReplace (normText (baseText (headerOf e) (descOf e))))

/-- The out-of-service flag of line 137, taken on the normalized text
before any substitution. -/
def oosOf (e : Entity) : Bool := oosDetect (normText (baseText (headerOf e) (descOf e)))

/-- `text_with_full` right after line 164: directional expansion and color
emojis applied to the line-154 text. -/
def cand0Of (e : Entity) : List Char := colorSub (ibobSub (text6Of e))

/-- Lines 167–171: `unique_routes` — the route-pattern tokens of
`text_with_full`, filtered to the known routes, deduplicated. -/
def routesOf (kr : List (List Char)) (e : Entity) : List (List Char) :=
  uniqueKeepFirst ((routeFindAll (cand0Of e)).filter (fun r => decide (r ∈ kr)))

/-- Lines 173–178: the mode emoji from the primary (first) feed type. -/
def modeEmojiOf (fts : List String) : Char :=
  if fts.headD "bus" == "bus" then '🚌' else '🚊'

/-- Lines 176–181: when 1–2 known routes were found, append the mode emoji
after each boundary occurrence of each route in `text_with_full`. -/
def cand1Of (kr : List (List Char)) (e : Entity) (fts : List String) : List Char :=
  let rs := routesOf kr e
  if rs.length ≤ 2 ∧ 0 < rs.length then
    rs.foldl (fun t r => subToks false [(r, r ++ ' ' :: [modeEmojiOf fts])] t) (cand0Of e)
  else cand0Of e

/-- Lines 183–185: adopt the annotated candidate only when it fits in 280
characters, else keep the line-154 text. -/
def workingOf (kr : List (List Char)) (e : Entity) (fts : List String) : List Char :=
  if (cand1Of kr e fts).length ≤ 280 then cand1Of kr e fts else text6Of e

/-- Lines 187–199: the feed emoji for the post's front. -/
def feedEmoji (fts : List String) (routes : List (List Char)) : List Char :=
  if 1 < fts.length then "🚌🚊".data
  else if "train" ∈ fts then "🚊".data
  else if 0 < routes.length then []
  else "🚌".data

/-- The feed emoji as `format_alert` computes it. -/
def feedEmojiOf (kr : List (List Char)) (e : Entity) (fts : List String) : List Char :=
  feedEmoji fts (routesOf kr e)

/-- Lines 201–207: put the feed emoji and the out-of-service warning in
front of the working text. -/
def applyEmojis (femoji : List Char) (oos : Bool) (t : List Char) : List Char :=
  if oos ∧ femoji ≠ [] then femoji ++ ' ' :: "⚠️ ".data ++ t
  else if oos then "⚠️ ".data ++ t
  else if femoji ≠ [] then femoji ++ ' ' :: t
  else t

/-- The post text before the final length check of line 210. -/
def preText (kr : List (List Char)) (e : Entity) (fts : List String) : List Char :=
  applyEmojis (feedEmojiOf kr e fts) (oosOf e) (workingOf kr e fts)

/-- Lines 210–211: over 300 characters, keep 297 and append `...`. -/
def truncate300 (t : List Char) : List Char :=
  if 300 < t.length then t.take 297 ++ "...".data else t

/-- `format_alert(entity, feed_types)` (lines 99–213), with the known-route
configuration as an argument. -/
def format_alert (kr : List (List Char)) (e : Entity) (fts : List String) : List Char :=
  truncate300 (preText kr e fts)

/-- `self.known_routes` (line 28). -/
def known_routes : List (List Char) :=
  (["1", "2", "4", "6", "7", "8", "11", "12", "13", "14", "15", "16", "17", "18",
    "19L", "20", "21", "22", "24", "26", "27", "28X", "29", "31", "36", "38", "39",
    "40", "41", "43", "44", "48", "51", "51L", "52L", "53", "53L", "54", "55", "56",
    "57", "58", "59", "60", "61A", "61B", "61C", "61D", "64", "65", "67", "69", "71",
    "71A", "71B", "71C", "71D", "74", "75", "77", "79", "81", "82", "83", "86", "87",
    "88", "89", "91", "93", "G2", "G3", "G31", "O1", "O12", "O5", "P1", "P10", "P12",
    "P13", "P16", "P17", "P3", "P67", "P68", "P69", "P7", "P71", "P76", "P78", "Y1",
    "Y45", "Y46", "Y47", "Y49"] : List String).map String.data

/-! ### Multi-feed merge and the publish sequencer (`run`, lines 227–299) -/

/-- Lines 251–257: fold one `(feed_type, entity)` record into the grouping
tables.  An association list in insertion order stands for the pair of
dicts `alert_feeds` (the list of feed types, appended per record) and
`alert_entities` (the first entity observed for the fingerprint); the
`if alert_hash:` truthiness guard keeps only non-empty hashes. -/
def addAlert (acc : List (List Char × List String × Entity)) (r : String × Entity) :
    List (List Char × List String × Entity) :=
  let h := get_alert_hash r.2
  if h = [] then acc
  else if (acc.lookup h).isSome then
    acc.map (fun g => if g.1 = h then (g.1, g.2.1 ++ [r.1], g.2.2) else g)
  else acc ++ [(h, ([r.1], r.2))]

/-- The grouping of all fetched records by fingerprint. -/
def mergeAlerts (records : List (String × Entity)) :
    List (List Char × List String × Entity) :=
  records.foldl addAlert []

/-- Lines 264–265: the sort key — the id as an integer when it is all
digits, else 0. -/
def sortKey (e : Entity) : Nat :=
  if e.id.data ≠ [] ∧ e.id.data.all Char.isDigit then
    e.id.data.foldl (fun n c => 10 * n + (c.toNat - 48)) 0
  else 0

/-- One entry of `alerts_to_post`. -/
structure QItem where
  key : Nat
  fingerprint : List Char
  feeds : List String
  entity : Entity
deriving DecidableEq

/-- Insert one item into an already sorted list, after equal keys, as a
stable ascending sort places it. -/
def insOne (x : QItem) : List QItem → List QItem
  | [] => [x]
  | y :: ys => if y.key ≤ x.key then y :: insOne x ys else x :: y :: ys

/-- Line 269: `alerts_to_post.sort(key=lambda x: x[0])` — Python's sort is
stable, and a stable ascending sort by key is the insertion sort. -/
def sortStable (l : List QItem) : List QItem := l.foldl (fun acc x => insOne x acc) []

/-- Lines 259–269: the new alerts, in merge order, filtered by the ledger,
then stably sorted by key. -/
def buildQueue (records : List (String × Entity)) (posted : Finset (List Char)) :
    List QItem :=
  sortStable ((mergeAlerts records).filterMap fun g =>
    if g.1 ∈ posted then none
    else some ⟨sortKey g.2.2, g.1, g.2.1, g.2.2⟩)

/-- The sequencer's state: `posted_ids` in memory, the persisted set on
disk, and `posted_count`. -/
structure RunState where
  mem : Finset (List Char)
  disk : Finset (List Char)
  count : Nat
deriving DecidableEq

/-- Lines 275–293, one iteration: render and publish; on success add the
fingerprint and persist, on a publisher failure catch it and change
nothing, continuing with the rest of the queue either way. -/
def postStep (kr : List (List Char)) (publishOk : List Char → Bool)
    (st : RunState) (it : QItem) : RunState :=
  if publishOk (format_alert kr it.entity it.feeds) then
    { mem := insert it.fingerprint st.mem,
      disk := insert it.fingerprint st.mem,
      count := st.count + 1 }
  else st

/-- `run` from line 241 on (the operating-hours gate is an external
predicate checked before this core): fetch results come in as `records`;
with no records the run reports zero posts (lines 243–245), else the queue
is posted one by one. -/
def runCore (kr : List (List Char)) (records : List (String × Entity))
    (posted0 : Finset (List Char)) (publishOk : List Char → Bool) : RunState :=
  if records = [] then ⟨posted0, posted0, 0⟩
  else (buildQueue records posted0).foldl (postStep kr publishOk) ⟨posted0, posted0, 0⟩

/-! ### Basic facts about the embedded operations -/

theorem wordHexLE_length (w : Nat) : (wordHexLE w).length = 8 := by
  simp [wordHexLE, byteHex]

theorem md5Hex_length (m : List Nat) : (md5Hex m).length = 32 := by
  simp [md5Hex, wordHexLE_length]

theorem get_alert_hash_length (e : Entity) : (get_alert_hash e).length = 16 := by
  simp [get_alert_hash, md5Hex_length]

theorem get_alert_hash_ne_nil (e : Entity) : get_alert_hash e ≠ [] := by
  intro h
  have h16 := get_alert_hash_length e
  rw [h] at h16
  simp at h16

theorem uniqueKeepFirst_nil : uniqueKeepFirst [] = [] := rfl

theorem routeFindAll_nil : routeFindAll [] = [] := rfl

theorem ibobSub_nil : ibobSub [] = [] := rfl

theorem colorSub_nil : colorSub [] = [] := rfl

/-! ### Claim theorems, C1 and C5 -/

/-- C1: the fingerprint `get_alert_hash` depends only on the extracted
header and description texts — never on the source-assigned id (or on the
source tag, which it is not even passed) — and always has length 16. -/
theorem alert_hash_content_only (e₁ e₂ : Entity)
    (hh : headerOf e₁ = headerOf e₂) (hd : descOf e₁ = descOf e₂) :
    get_alert_hash e₁ = get_alert_hash e₂ ∧ (get_alert_hash e₁).length = 16 := by
  constructor
  · simp only [get_alert_hash, hh, hd]
  · exact get_alert_hash_length e₁

/-- Witness for C1 at two concrete records that differ in the
source-assigned id (and in trailing translations) but share their header
and description texts. -/
theorem alert_hash_content_only_wit :
    headerOf ⟨"123", ["Route delayed"], ["Detour"]⟩ =
        headerOf ⟨"999", ["Route delayed", "es"], ["Detour", "es"]⟩ ∧
      descOf ⟨"123", ["Route delayed"], ["Detour"]⟩ =
        descOf ⟨"999", ["Route delayed", "es"], ["Detour", "es"]⟩ ∧
      get_alert_hash ⟨"123", ["Route delayed"], ["Detour"]⟩ =
        get_alert_hash ⟨"999", ["Route delayed", "es"], ["Detour", "es"]⟩ ∧
      (get_alert_hash ⟨"123", ["Route delayed"], ["Detour"]⟩).length = 16 :=
  ⟨rfl, rfl,
    (alert_hash_content_only ⟨"123", ["Route delayed"], ["Detour"]⟩
      ⟨"999", ["Route delayed", "es"], ["Detour", "es"]⟩ rfl rfl).1,
    (alert_hash_content_only ⟨"123", ["Route delayed"], ["Detour"]⟩
      ⟨"999", ["Route delayed", "es"], ["Detour", "es"]⟩ rfl rfl).2⟩

/-- C5, counterexample: a non-empty description is not used alone as the
base text — lines 119–131 combine it with the header. -/
theorem base_text_not_description_alone :
    descOf ⟨"1", ["Alpha"], ["Beta"]⟩ ≠ [] ∧
      baseText (headerOf ⟨"1", ["Alpha"], ["Beta"]⟩) (descOf ⟨"1", ["Alpha"], ["Beta"]⟩) =
        "Alpha: Beta".data ∧
      baseText (headerOf ⟨"1", ["Alpha"], ["Beta"]⟩) (descOf ⟨"1", ["Alpha"], ["Beta"]⟩) ≠
        descOf ⟨"1", ["Alpha"], ["Beta"]⟩ := by
  refine ⟨by decide, by decide, by decide⟩

/-- C5 as amended: the base text is the header when the description is
empty or equal to the header, and otherwise it is the (possibly
redundancy-stripped) header, a colon and a space, and the description;
the description alone is the base text only when it equals the header. -/
theorem base_text_combines (h d : List Char) :
    (d = [] ∨ d = h → baseText h d = h) ∧
      (d ≠ [] → d ≠ h → baseText h d = stripRedundant h ++ ':' :: ' ' :: d) ∧
      (baseText h d = d → d = h) := by
  refine ⟨?_, ?_, ?_⟩
  · intro hcase
    unfold baseText
    rcases hcase with hnil | heq
    · rw [if_neg]
      rintro ⟨hne, -⟩
      exact hne hnil
    · rw [if_neg]
      rintro ⟨-, hne⟩
      exact hne heq
  · intro h1 h2
    unfold baseText
    rw [if_pos ⟨h1, h2⟩]
  · intro hbase
    unfold baseText at hbase
    split_ifs at hbase with hcond
    · exfalso
      have hlen := congrArg List.length hbase
      simp only [List.length_append, List.length_cons] at hlen
      omega
    · exact hbase.symm

/-! ### Non-emptiness of the rendered post (towards C2) -/

theorem tryToks_ne_nil (ci : Bool) :
    ∀ (toks : List (List Char × List Char)) (s r : List Char) (k : Nat),
      (∀ p ∈ toks, p.2 ≠ ([] : List Char)) → tryToks ci toks s = some (r, k) → r ≠ [] := by
  intro toks
  induction toks with
  | nil => intro s r k _ hsome; simp [tryToks] at hsome
  | cons p rest ih =>
    intro s r k hreps hsome
    obtain ⟨t, rp⟩ := p
    have hrp : rp ≠ [] := hreps (t, rp) (List.mem_cons_self _ _)
    have hrest : ∀ q ∈ rest, q.2 ≠ ([] : List Char) :=
      fun q hq => hreps q (List.mem_cons_of_mem _ hq)
    simp only [tryToks] at hsome
    rcases hm : tokHead ci t s with - | after
    · simp only [hm] at hsome
      exact ih s r k hrest hsome
    · simp only [hm] at hsome
      by_cases hb : boundaryAfter after = true
      · rw [if_pos hb] at hsome
        simp only [Option.some.injEq, Prod.mk.injEq] at hsome
        rw [← hsome.1]
        exact hrp
      · rw [if_neg hb] at hsome
        exact ih s r k hrest hsome

theorem subToksGo_ne_nil (ci : Bool) (toks : List (List Char × List Char))
    (hreps : ∀ p ∈ toks, p.2 ≠ ([] : List Char)) :
    ∀ (fuel : Nat) (pw : Bool) (s : List Char), s ≠ [] → subToksGo ci toks fuel pw s ≠ [] := by
  intro fuel pw s hs
  match fuel, s with
  | _, [] => exact absurd rfl hs
  | 0, c :: cs => simp [subToksGo]
  | f + 1, c :: cs =>
    simp only [subToksGo]
    split
    · simp
    · rcases heq : tryToks ci toks (c :: cs) with - | ⟨r, k⟩
      · simp only [heq]
        simp
      · simp only [heq]
        exact List.append_ne_nil_of_left_ne_nil (tryToks_ne_nil ci toks _ r k hreps heq) _

theorem subToks_ne_nil (ci : Bool) (toks : List (List Char × List Char))
    (hreps : ∀ p ∈ toks, p.2 ≠ ([] : List Char)) (s : List Char) (hs : s ≠ []) :
    subToks ci toks s ≠ [] :=
  subToksGo_ne_nil ci toks hreps s.length false s hs

theorem foldl_routeEmoji_ne_nil (em : Char) :
    ∀ (rs : List (List Char)) (t : List Char), t ≠ [] →
      rs.foldl (fun t r => subToks false [(r, r ++ ' ' :: [em])] t) t ≠ [] := by
  intro rs
  induction rs with
  | nil => intro t ht; simpa using ht
  | cons r rest ih =>
    intro t ht
    simp only [List.foldl_cons]
    apply ih
    apply subToks_ne_nil _ _ _ _ ht
    intro p hp
    simp only [List.mem_singleton] at hp
    rw [hp]
    simp

theorem foldl_routeEmoji_nil (em : Char) :
    ∀ (rs : List (List Char)),
      rs.foldl (fun t r => subToks false [(r, r ++ ' ' :: [em])] t) [] = [] := by
  intro rs
  induction rs with
  | nil => rfl
  | cons r rest ih =>
    simp only [List.foldl_cons]
    rw [show subToks false [(r, r ++ ' ' :: [em])] [] = [] from rfl]
    exact ih

theorem cand0Of_eq_nil (e : Entity) (h : text6Of e = []) : cand0Of e = [] := by
  unfold cand0Of
  rw [h, ibobSub_nil, colorSub_nil]

theorem routesOf_ne_nil_cand0 (kr : List (List Char)) (e : Entity)
    (h : routesOf kr e ≠ []) : cand0Of e ≠ [] := by
  intro hc
  apply h
  unfold routesOf
  rw [hc, routeFindAll_nil]
  rfl

theorem cand1Of_ne_nil (kr : List (List Char)) (e : Entity) (fts : List String)
    (h0 : cand0Of e ≠ []) : cand1Of kr e fts ≠ [] := by
  simp only [cand1Of]
  split_ifs with hc
  · exact foldl_routeEmoji_ne_nil _ _ _ h0
  · exact h0

theorem cand1Of_nil (kr : List (List Char)) (e : Entity) (fts : List String)
    (h0 : cand0Of e = []) : cand1Of kr e fts = [] := by
  simp only [cand1Of]
  split_ifs with hc
  · rw [h0]; exact foldl_routeEmoji_nil _ _
  · exact h0

theorem workingOf_ne_nil (kr : List (List Char)) (e : Entity) (fts : List String)
    (hr : routesOf kr e ≠ []) : workingOf kr e fts ≠ [] := by
  unfold workingOf
  split_ifs with hlen
  · exact cand1Of_ne_nil kr e fts (routesOf_ne_nil_cand0 kr e hr)
  · intro h6
    apply hlen
    rw [cand1Of_nil kr e fts (cand0Of_eq_nil e h6)]
    simp

theorem feedEmoji_eq_nil (fts : List String) (routes : List (List Char))
    (h : feedEmoji fts routes = []) : routes ≠ [] := by
  unfold feedEmoji at h
  split_ifs at h with h1 h2 h3
  exact List.length_pos_iff_ne_nil.mp h3

theorem preText_ne_nil (kr : List (List Char)) (e : Entity) (fts : List String) :
    preText kr e fts ≠ [] := by
  unfold preText applyEmojis
  split_ifs with h1 h2 h3
  · simp
  · exact List.append_ne_nil_of_left_ne_nil (by decide) _
  · simp
  · apply workingOf_ne_nil
    apply feedEmoji_eq_nil fts (routesOf kr e)
    have hnil : feedEmojiOf kr e fts = [] := not_not.mp h3
    exact hnil

theorem truncate300_bounds (t : List Char) (h : t ≠ []) :
    1 ≤ (truncate300 t).length ∧ (truncate300 t).length ≤ 300 := by
  unfold truncate300
  split_ifs with h3
  · simp only [List.length_append, List.length_take,
      show ("...".data.length) = 3 from rfl]
    omega
  · have := List.length_pos_iff_ne_nil.mpr h
    omega

/-- C2: for every known-route configuration, alert and source list, the
rendered post has between 1 and 300 characters; and whenever the text
before the final check exceeds 300 characters, the result is exactly its
first 297 characters with `...` appended, of length exactly 300. -/
theorem renderer_length_bound (kr : List (List Char)) (e : Entity) (fts : List String) :
    1 ≤ (format_alert kr e fts).length ∧ (format_alert kr e fts).length ≤ 300 ∧
      (300 < (preText kr e fts).length →
        format_alert kr e fts = (preText kr e fts).take 297 ++ "...".data ∧
          (format_alert kr e fts).length = 300) := by
  have hpre := preText_ne_nil kr e fts
  have hb := truncate300_bounds (preText kr e fts) hpre
  refine ⟨hb.1, hb.2, ?_⟩
  intro hlong
  unfold format_alert truncate300
  rw [if_pos hlong]
  refine ⟨rfl, ?_⟩
  simp only [List.length_append, List.length_take,
    show ("...".data.length) = 3 from rfl]
  omega

/-! ### The publish sequencer: ledger update discipline (towards C3, C4) -/

/-- Whether the external publisher confirms the rendered post of a queue
item (the outcome of `self.client.send_post` inside the try of
lines 276–284). -/
def publishAccepted (kr : List (List Char)) (publishOk : List Char → Bool)
    (it : QItem) : Bool :=
  publishOk (format_alert kr it.entity it.feeds)

theorem postStep_eq (kr : List (List Char)) (publishOk : List Char → Bool)
    (st : RunState) (it : QItem) :
    postStep kr publishOk st it =
      if publishAccepted kr publishOk it then
        ⟨insert it.fingerprint st.mem, insert it.fingerprint st.mem, st.count + 1⟩
      else st := rfl

theorem foldPost_mem (kr : List (List Char)) (publishOk : List Char → Bool) :
    ∀ (l : List QItem) (st : RunState),
      (l.foldl (postStep kr publishOk) st).mem =
        st.mem ∪ ((l.filter (publishAccepted kr publishOk)).map
          (fun it => it.fingerprint)).toFinset := by
  intro l
  induction l with
  | nil => intro st; simp
  | cons it rest ih =>
    intro st
    simp only [List.foldl_cons, postStep_eq]
    by_cases hacc : publishAccepted kr publishOk it = true
    · rw [if_pos hacc, ih]
      rw [List.filter_cons_of_pos hacc]
      simp only [List.map_cons, List.toFinset_cons]
      rw [Finset.insert_union, Finset.union_insert]
    · rw [if_neg hacc, ih, List.filter_cons_of_neg (by simpa using hacc)]

theorem foldPost_disk (kr : List (List Char)) (publishOk : List Char → Bool) :
    ∀ (l : List QItem) (st : RunState), st.disk = st.mem →
      (l.foldl (postStep kr publishOk) st).disk =
        (l.foldl (postStep kr publishOk) st).mem := by
  intro l
  induction l with
  | nil => intro st h; exact h
  | cons it rest ih =>
    intro st h
    simp only [List.foldl_cons, postStep_eq]
    by_cases hacc : publishAccepted kr publishOk it = true
    · rw [if_pos hacc]; exact ih _ rfl
    · rw [if_neg hacc]; exact ih _ h

theorem foldPost_count (kr : List (List Char)) (publishOk : List Char → Bool) :
    ∀ (l : List QItem) (st : RunState),
      (l.foldl (postStep kr publishOk) st).count =
        st.count + (l.filter (publishAccepted kr publishOk)).length := by
  intro l
  induction l with
  | nil => intro st; simp
  | cons it rest ih =>
    intro st
    simp only [List.foldl_cons, postStep_eq]
    by_cases hacc : publishAccepted kr publishOk it = true
    · rw [if_pos hacc, ih, List.filter_cons_of_pos hacc]
      simp only [List.length_cons]
      omega
    · rw [if_neg hacc, ih, List.filter_cons_of_neg (by simpa using hacc)]

theorem mem_insOne (x : QItem) : ∀ (l : List QItem) (a : QItem),
    a ∈ insOne x l ↔ a = x ∨ a ∈ l := by
  intro l
  induction l with
  | nil => intro a; simp [insOne]
  | cons y ys ih =>
    intro a
    simp only [insOne]
    split_ifs with hk
    · simp only [List.mem_cons, ih]
      tauto
    · simp only [List.mem_cons]

theorem mem_sortStable_aux : ∀ (l acc : List QItem) (a : QItem),
    a ∈ l.foldl (fun acc x => insOne x acc) acc ↔ a ∈ acc ∨ a ∈ l := by
  intro l
  induction l with
  | nil => intro acc a; simp
  | cons x rest ih =>
    intro acc a
    simp only [List.foldl_cons]
    rw [ih, mem_insOne]
    simp only [List.mem_cons]
    tauto

theorem mem_sortStable (l : List QItem) (a : QItem) : a ∈ sortStable l ↔ a ∈ l := by
  unfold sortStable
  rw [mem_sortStable_aux]
  simp

theorem buildQueue_nil (posted : Finset (List Char)) : buildQueue [] posted = [] := rfl

theorem runCore_count_of_queue_nil (kr : List (List Char))
    (records : List (String × Entity)) (posted : Finset (List Char))
    (pub : List Char → Bool) (hq : buildQueue records posted = []) :
    (runCore kr records posted pub).count = 0 := by
  unfold runCore
  split_ifs with hrec
  · rfl
  · rw [hq]
    rfl

theorem mem_buildQueue_of_merge (records : List (String × Entity))
    (posted : Finset (List Char)) (g : List Char × List String × Entity)
    (hg : g ∈ mergeAlerts records) (hnp : g.1 ∉ posted) :
    (⟨sortKey g.2.2, g.1, g.2.1, g.2.2⟩ : QItem) ∈ buildQueue records posted := by
  unfold buildQueue
  rw [mem_sortStable]
  exact List.mem_filterMap.mpr ⟨g, hg, by simp [hnp]⟩

/-- C4: over a whole run, the in-memory ledger ends as the starting ledger
plus exactly the fingerprints of queue items whose posts the publisher
confirmed; the persisted set equals the in-memory set; the reported count
is the number of confirmed posts (every queue item is attempted, publisher
failures are absorbed); and a fingerprint all of whose queue items fail to
publish is never added. -/
theorem publish_failure_isolated (kr : List (List Char))
    (records : List (String × Entity)) (posted0 : Finset (List Char))
    (publishOk : List Char → Bool) :
    (runCore kr records posted0 publishOk).mem =
        posted0 ∪ (((buildQueue records posted0).filter
          (publishAccepted kr publishOk)).map (fun it => it.fingerprint)).toFinset ∧
      (runCore kr records posted0 publishOk).disk =
        (runCore kr records posted0 publishOk).mem ∧
      (runCore kr records posted0 publishOk).count =
        ((buildQueue records posted0).filter (publishAccepted kr publishOk)).length ∧
      (∀ fp : List Char, fp ∉ posted0 →
        (∀ it ∈ buildQueue records posted0, it.fingerprint = fp →
          publishAccepted kr publishOk it = false) →
        fp ∉ (runCore kr records posted0 publishOk).mem) := by
  by_cases hrec : records = []
  · subst hrec
    simp [runCore, buildQueue_nil]
  · simp only [runCore, if_neg hrec]
    refine ⟨foldPost_mem kr publishOk _ _, foldPost_disk kr publishOk _ _ rfl, ?_, ?_⟩
    · rw [foldPost_count]
      simp
    intro fp hfp hall hmem
    rw [foldPost_mem] at hmem
    rcases Finset.mem_union.mp hmem with h | h
    · exact hfp h
    · rw [List.mem_toFinset] at h
      rcases List.mem_map.mp h with ⟨it, hit, heq⟩
      rcases List.mem_filter.mp hit with ⟨hq, hacc⟩
      rw [hall it hq heq] at hacc
      exact Bool.false_ne_true hacc

/-- C3: when a run confirms every queued post, a second run over the same
records, starting from the persisted ledger the first run left, filters
out every fingerprint (its queue is empty) and reports zero posts. -/
theorem ledger_idempotent (kr : List (List Char))
    (records : List (String × Entity)) (posted0 : Finset (List Char))
    (pub pub₂ : List Char → Bool)
    (hall : ∀ it ∈ buildQueue records posted0, publishAccepted kr pub it = true) :
    buildQueue records (runCore kr records posted0 pub).disk = [] ∧
      (runCore kr records (runCore kr records posted0 pub).disk pub₂).count = 0 := by
  by_cases hrec : records = []
  · subst hrec
    exact ⟨buildQueue_nil _, by simp [runCore]⟩
  · have hdisk : (runCore kr records posted0 pub).disk =
        (runCore kr records posted0 pub).mem := by
      simp only [runCore, if_neg hrec]
      exact foldPost_disk kr pub _ _ rfl
    have hmem : (runCore kr records posted0 pub).mem =
        posted0 ∪ ((buildQueue records posted0).map (fun it => it.fingerprint)).toFinset := by
      simp only [runCore, if_neg hrec]
      rw [foldPost_mem, List.filter_eq_self.mpr hall]
    have hempty : buildQueue records (runCore kr records posted0 pub).disk = [] := by
      unfold buildQueue
      have hfm : (mergeAlerts records).filterMap
          (fun g => if g.1 ∈ (runCore kr records posted0 pub).disk then none
            else some (⟨sortKey g.2.2, g.1, g.2.1, g.2.2⟩ : QItem)) = [] := by
        rw [List.filterMap_eq_nil_iff]
        intro g hg
        have hgd : g.1 ∈ (runCore kr records posted0 pub).disk := by
          rw [hdisk, hmem]
          by_cases hp : g.1 ∈ posted0
          · exact Finset.mem_union_left _ hp
          · apply Finset.mem_union_right
            rw [List.mem_toFinset]
            exact List.mem_map.mpr
              ⟨⟨sortKey g.2.2, g.1, g.2.1, g.2.2⟩,
                mem_buildQueue_of_merge records posted0 g hg hp, rfl⟩
        rw [if_pos hgd]
      rw [hfm]
      rfl
    exact ⟨hempty, runCore_count_of_queue_nil kr records _ pub₂ hempty⟩

/-- Witness for C3: one bus record, a publisher that accepts everything;
the first run's persisted ledger makes the second queue empty and the
second run posts nothing. -/
theorem ledger_idempotent_wit :
    (∀ it ∈ buildQueue [("bus", (⟨"5", ["Stops closed"], ["Use next stop"]⟩ : Entity))]
        (∅ : Finset (List Char)), publishAccepted known_routes (fun _ => true) it = true) ∧
      buildQueue [("bus", (⟨"5", ["Stops closed"], ["Use next stop"]⟩ : Entity))]
        (runCore known_routes [("bus", ⟨"5", ["Stops closed"], ["Use next stop"]⟩)]
          (∅ : Finset (List Char)) (fun _ => true)).disk = [] ∧
      (runCore known_routes [("bus", ⟨"5", ["Stops closed"], ["Use next stop"]⟩)]
        (runCore known_routes [("bus", ⟨"5", ["Stops closed"], ["Use next stop"]⟩)]
          (∅ : Finset (List Char)) (fun _ => true)).disk (fun _ => false)).count = 0 :=
  ⟨fun _ _ => rfl,
    (ledger_idempotent known_routes [("bus", ⟨"5", ["Stops closed"], ["Use next stop"]⟩)]
      ∅ (fun _ => true) (fun _ => false) (fun _ _ => rfl)).1,
    (ledger_idempotent known_routes [("bus", ⟨"5", ["Stops closed"], ["Use next stop"]⟩)]
      ∅ (fun _ => true) (fun _ => false) (fun _ _ => rfl)).2⟩

/-! ### Multi-feed merge: accumulated source tags (towards C6) -/

/-- The source tags of all records carrying the given fingerprint, in
input order, duplicates kept. -/
def tagsOfRecords (records : List (String × Entity)) (fp : List Char) : List String :=
  (records.filter (fun r => decide (get_alert_hash r.2 = fp))).map Prod.fst

theorem tagsOfRecords_append (proc : List (String × Entity)) (r : String × Entity)
    (fp : List Char) :
    tagsOfRecords (proc ++ [r]) fp =
      tagsOfRecords proc fp ++ (if get_alert_hash r.2 = fp then [r.1] else []) := by
  unfold tagsOfRecords
  rw [List.filter_append, List.map_append]
  congr 1
  split_ifs with h <;> simp [h]

theorem addAlert_upd_keys (acc : List (List Char × List String × Entity))
    (h : List Char) (tag : String) :
    (acc.map (fun g => if g.1 = h then (g.1, g.2.1 ++ [tag], g.2.2) else g)).map
        (fun g => g.1) =
      acc.map (fun g => g.1) := by
  rw [List.map_map]
  apply List.map_congr_left
  intro g _
  by_cases hg : g.1 = h <;> simp [hg]

theorem addAlert_keys (acc : List (List Char × List String × Entity))
    (r : String × Entity) (fp : List Char) (hfp : fp ∈ acc.map (fun g => g.1)) :
    fp ∈ (addAlert acc r).map (fun g => g.1) := by
  simp only [addAlert]
  split_ifs with h0 hsome
  · exact hfp
  · rw [addAlert_upd_keys]
    exact hfp
  · rw [List.map_append]
    exact List.mem_append_left _ hfp

theorem addAlert_inv (acc : List (List Char × List String × Entity))
    (proc : List (String × Entity)) (r : String × Entity)
    (h1 : ∀ g ∈ acc, g.2.1 = tagsOfRecords proc g.1)
    (h2 : ∀ q ∈ proc, get_alert_hash q.2 ∈ acc.map (fun g => g.1)) :
    (∀ g ∈ addAlert acc r, g.2.1 = tagsOfRecords (proc ++ [r]) g.1) ∧
      (∀ q ∈ proc ++ [r], get_alert_hash q.2 ∈ (addAlert acc r).map (fun g => g.1)) := by
  have hne := get_alert_hash_ne_nil r.2
  constructor
  · intro g' hg'
    simp only [addAlert] at hg'
    rw [if_neg hne] at hg'
    by_cases hsome : (acc.lookup (get_alert_hash r.2)).isSome = true
    · rw [if_pos hsome] at hg'
      rcases List.mem_map.mp hg' with ⟨g, hg, rfl⟩
      by_cases hgh : g.1 = get_alert_hash r.2
      · simp only [if_pos hgh]
        rw [tagsOfRecords_append, if_pos hgh.symm, h1 g hg]
      · simp only [if_neg hgh]
        rw [tagsOfRecords_append, if_neg (fun hh => hgh hh.symm), List.append_nil]
        exact h1 g hg
    · rw [if_neg hsome] at hg'
      rcases List.mem_append.mp hg' with hg | hg
      · have hgh : g'.1 ≠ get_alert_hash r.2 := by
          intro hh
          apply hsome
          rw [List.lookup_isSome_iff]
          exact ⟨g', hg, by simp [hh]⟩
        rw [tagsOfRecords_append, if_neg (fun hh => hgh hh.symm), List.append_nil]
        exact h1 g' hg
      · simp only [List.mem_singleton] at hg
        subst hg
        have hf : (proc.filter
            (fun q => decide (get_alert_hash q.2 = get_alert_hash r.2))) = [] := by
          rw [List.filter_eq_nil_iff]
          intro q hq hdec
          apply hsome
          rw [List.lookup_isSome_iff]
          have hqe : get_alert_hash q.2 = get_alert_hash r.2 := by simpa using hdec
          rcases List.mem_map.mp (h2 q hq) with ⟨g, hgmem, hg1⟩
          exact ⟨g, hgmem, by simp [hg1, hqe]⟩
        have hnil : tagsOfRecords proc (get_alert_hash r.2) = [] := by
          unfold tagsOfRecords
          rw [hf]
          rfl
        rw [tagsOfRecords_append, if_pos rfl, hnil]
        rfl
  · intro q hq
    rcases List.mem_append.mp hq with hq | hq
    · exact addAlert_keys acc r _ (h2 q hq)
    · simp only [List.mem_singleton] at hq
      subst hq
      simp only [addAlert]
      rw [if_neg hne]
      by_cases hsome : (acc.lookup (get_alert_hash q.2)).isSome = true
      · rw [if_pos hsome, addAlert_upd_keys]
        rcases List.lookup_isSome_iff.mp hsome with ⟨p, hp, hbeq⟩
        have hpe : get_alert_hash q.2 = p.1 := by simpa using hbeq
        rw [hpe]
        exact List.mem_map.mpr ⟨p, hp, rfl⟩
      · rw [if_neg hsome, List.map_append]
        apply List.mem_append_right
        simp

theorem mergeAux : ∀ (rest : List (String × Entity))
    (acc : List (List Char × List String × Entity)) (proc : List (String × Entity)),
    (∀ g ∈ acc, g.2.1 = tagsOfRecords proc g.1) →
    (∀ q ∈ proc, get_alert_hash q.2 ∈ acc.map (fun g => g.1)) →
    (∀ g ∈ rest.foldl addAlert acc, g.2.1 = tagsOfRecords (proc ++ rest) g.1) := by
  intro rest
  induction rest with
  | nil =>
    intro acc proc h1 h2
    rw [List.foldl_nil, List.append_nil]
    exact h1
  | cons r rest ih =>
    intro acc proc h1 h2
    have step := addAlert_inv acc proc r h1 h2
    have hres := ih (addAlert acc r) (proc ++ [r]) step.1 step.2
    rw [List.append_assoc] at hres
    exact hres

theorem mergeAlerts_tags (records : List (String × Entity)) :
    ∀ g ∈ mergeAlerts records, g.2.1 = tagsOfRecords records g.1 := by
  have h := mergeAux records [] []
    (fun g hg => absurd hg (List.not_mem_nil g))
    (fun q hq => absurd hq (List.not_mem_nil q))
  rw [List.nil_append] at h
  exact h

/-! ### Prefixes of the final post survive truncation (towards C6, C9) -/

theorem prefix_truncate300 (p t : List Char) (hp : p <+: t) (hl : p.length ≤ 297) :
    p <+: truncate300 t := by
  unfold truncate300
  split_ifs with h
  · rcases hp with ⟨rest, rfl⟩
    rw [List.take_append_eq_append_take, List.take_of_length_le hl, List.append_assoc]
    exact List.prefix_append _ _
  · exact hp

theorem applyEmojis_starts (femoji : List Char) (oos : Bool) (t : List Char)
    (hf : femoji ≠ []) :
    applyEmojis femoji oos t = femoji ++ ' ' :: "⚠️ ".data ++ t ∨
      applyEmojis femoji oos t = femoji ++ ' ' :: t := by
  unfold applyEmojis
  split_ifs with h1 h2
  · left; rfl
  · exact absurd ⟨h2, hf⟩ h1
  · right; rfl

theorem preText_starts (kr : List (List Char)) (e : Entity) (fts : List String)
    (hf : feedEmojiOf kr e fts ≠ []) :
    feedEmojiOf kr e fts ++ [' '] <+: preText kr e fts := by
  unfold preText
  rcases applyEmojis_starts (feedEmojiOf kr e fts) (oosOf e) (workingOf kr e fts) hf
    with h | h <;> rw [h]
  · exact ⟨"⚠️ ".data ++ workingOf kr e fts, by simp⟩
  · exact ⟨workingOf kr e fts, by simp⟩

/-- C6 as amended: each fingerprint's recorded source collection is the
list of the source tags of every record that produced it, in input order
and with duplicates kept; the post is prefixed `🚌🚊 ` exactly when that
collection has more than one element (more than one contributing record,
even from a single source); else `🚊 ` when `train` is among the tags;
else no prefix when a known route was extracted; else `🚌 `. -/
theorem merge_tags_and_prefix (records : List (String × Entity)) (kr : List (List Char)) :
    (∀ g ∈ mergeAlerts records, g.2.1 = tagsOfRecords records g.1) ∧
      (∀ (e : Entity) (fts : List String),
        feedEmojiOf kr e fts =
          (if 1 < fts.length then "🚌🚊".data
           else if "train" ∈ fts then "🚊".data
           else if routesOf kr e ≠ [] then []
           else "🚌".data)) ∧
      (∀ (e : Entity) (fts : List String), 1 < fts.length →
        "🚌🚊 ".data <+: format_alert kr e fts) := by
  refine ⟨mergeAlerts_tags records, ?_, ?_⟩
  · intro e fts
    unfold feedEmojiOf feedEmoji
    by_cases h1 : 1 < fts.length
    · simp [h1]
    · by_cases h2 : "train" ∈ fts
      · simp [h1, h2]
      · by_cases h3 : routesOf kr e = []
        · simp [h1, h2, h3]
        · simp [h1, h2, h3, List.length_pos_iff_ne_nil]
  · intro e fts hf
    have hfe : feedEmojiOf kr e fts = "🚌🚊".data := by
      unfold feedEmojiOf feedEmoji
      rw [if_pos hf]
    have hst := preText_starts kr e fts (by rw [hfe]; decide)
    rw [hfe] at hst
    have hp : "🚌🚊 ".data <+: preText kr e fts := by
      rw [show ("🚌🚊 ".data) = "🚌🚊".data ++ [' '] from rfl]
      exact hst
    exact prefix_truncate300 _ _ hp (by decide)

set_option maxRecDepth 40000 in
/-- C6, counterexample: two records from the bus feed alone, with the same
alert text, make the fingerprint's recorded collection `["bus", "bus"]`
(one distinct source), yet the rendered post is prefixed `🚌🚊 ` — the
multi-source prefix is keyed to record multiplicity, not to the number of
distinct sources. -/
theorem multi_prefix_single_source :
    (mergeAlerts [("bus", (⟨"7", ["Two buses"], []⟩ : Entity)),
        ("bus", (⟨"8", ["Two buses"], []⟩ : Entity))]).map (fun g => g.2.1) =
      [["bus", "bus"]] ∧
      (["bus", "bus"] : List String).dedup = ["bus"] ∧
      "🚌🚊 ".data <+: format_alert known_routes ⟨"7", ["Two buses"], []⟩ ["bus", "bus"] := by
  refine ⟨by decide, by decide, by decide⟩

/-! ### Placement of the out-of-service warning (towards C9) -/

theorem feedEmojiOf_short (kr : List (List Char)) (e : Entity) (fts : List String) :
    (feedEmojiOf kr e fts).length ≤ 2 := by
  unfold feedEmojiOf feedEmoji
  split_ifs <;> decide

theorem applyEmojis_oos_nil (t : List Char) :
    applyEmojis [] true t = "⚠️ ".data ++ t := by
  unfold applyEmojis
  simp

theorem applyEmojis_oos_some (f t : List Char) (hf : f ≠ []) :
    applyEmojis f true t = f ++ ' ' :: "⚠️ ".data ++ t := by
  unfold applyEmojis
  rw [if_pos ⟨rfl, hf⟩]

/-- C9 as amended: on an out-of-service alert the warning `⚠️ ` is placed
after the source-prefix emoji when one is present — the final post begins
with the source prefix and then the warning — and at the very front only
when there is no source prefix. -/
theorem oos_after_source_prefix (kr : List (List Char)) (e : Entity) (fts : List String)
    (hoos : oosOf e = true) :
    (feedEmojiOf kr e fts = [] → "⚠️ ".data <+: format_alert kr e fts) ∧
      (feedEmojiOf kr e fts ≠ [] →
        (feedEmojiOf kr e fts ++ ' ' :: "⚠️ ".data) <+: format_alert kr e fts) := by
  constructor
  · intro hf
    apply prefix_truncate300 _ _ ?_ (by decide)
    unfold preText
    rw [hf, hoos, applyEmojis_oos_nil]
    exact List.prefix_append _ _
  · intro hf
    apply prefix_truncate300 _ _ ?_ ?_
    · unfold preText
      rw [hoos, applyEmojis_oos_some _ _ hf]
      exact ⟨workingOf kr e fts, by simp⟩
    · have h2 := feedEmojiOf_short kr e fts
      simp only [List.length_append, List.length_cons,
        show ("⚠️ ".data.length) = 3 from rfl]
      omega

/-- Witness for C9 (amended) at a concrete out-of-service bus record. -/
theorem oos_after_source_prefix_wit :
    oosOf ⟨"3", ["12 OS at garage"], []⟩ = true ∧
      ((feedEmojiOf known_routes ⟨"3", ["12 OS at garage"], []⟩ ["bus"] = [] →
          "⚠️ ".data <+: format_alert known_routes ⟨"3", ["12 OS at garage"], []⟩ ["bus"]) ∧
        (feedEmojiOf known_routes ⟨"3", ["12 OS at garage"], []⟩ ["bus"] ≠ [] →
          (feedEmojiOf known_routes ⟨"3", ["12 OS at garage"], []⟩ ["bus"] ++
              ' ' :: "⚠️ ".data) <+:
            format_alert known_routes ⟨"3", ["12 OS at garage"], []⟩ ["bus"])) :=
  ⟨by decide,
    oos_after_source_prefix known_routes ⟨"3", ["12 OS at garage"], []⟩ ["bus"] (by decide)⟩

/-- C9, counterexample: an out-of-service bus-only alert with no known
route is rendered `🚌 ⚠️ …` — the source prefix comes first, so the post
does not begin with `⚠️` (the claim expects `⚠️ 🚌 `). -/
theorem oos_prefix_order_cex :
    format_alert known_routes ⟨"1", ["OS"], []⟩ ["bus"] = "🚌 ⚠️ Out of Service".data ∧
      ¬ ("⚠️".data <+: format_alert known_routes ⟨"1", ["OS"], []⟩ ["bus"]) := by
  refine ⟨by decide, by decide⟩

/-! ### Route extraction: shape, dedup, and scan input (towards C7) -/

/-- A token of the route pattern's shape: an optional single uppercase
letter, one or more digits, an optional single uppercase letter. -/
def RouteShape (t : List Char) : Prop :=
  ∃ (pre ds post : List Char),
    t = pre ++ ds ++ post ∧ ds ≠ [] ∧ (∀ c ∈ ds, c.isDigit = true) ∧
      (pre = [] ∨ ∃ c, pre = [c] ∧ c.isUpper = true) ∧
      (post = [] ∨ ∃ c, post = [c] ∧ c.isUpper = true)

theorem routeTokCore_shape (pre rest : List Char) (t : List Char) (k : Nat)
    (hpre : pre = [] ∨ ∃ c0, pre = [c0] ∧ c0.isUpper = true)
    (h : routeTokCore pre rest = some (t, k)) : RouteShape t := by
  unfold routeTokCore at h
  by_cases hds : ((rest.takeWhile Char.isDigit).isEmpty = true)
  · rw [if_pos hds] at h
    exact absurd h (by simp)
  · rw [if_neg hds] at h
    have hdsne : rest.takeWhile Char.isDigit ≠ [] := by
      intro hh
      apply hds
      rw [hh]
      rfl
    have hdig : ∀ c ∈ rest.takeWhile Char.isDigit, c.isDigit = true :=
      fun c hc => List.mem_takeWhile_imp hc
    rcases hdrop : rest.dropWhile Char.isDigit with - | ⟨c, more⟩
    · simp only [hdrop] at h
      simp only [Option.some.injEq, Prod.mk.injEq] at h
      refine ⟨pre, rest.takeWhile Char.isDigit, [], ?_, hdsne, hdig, hpre, Or.inl rfl⟩
      rw [← h.1]
      simp
    · simp only [hdrop] at h
      by_cases hup : c.isUpper = true
      · rw [if_pos hup] at h
        by_cases hb : boundaryAfter more = true
        · rw [if_pos hb] at h
          simp only [Option.some.injEq, Prod.mk.injEq] at h
          refine ⟨pre, rest.takeWhile Char.isDigit, [c], ?_, hdsne, hdig, hpre,
            Or.inr ⟨c, rfl, hup⟩⟩
          rw [← h.1]
        · rw [if_neg hb] at h
          exact absurd h (by simp)
      · rw [if_neg hup] at h
        by_cases hw : isWordChar c = true
        · rw [if_pos hw] at h
          exact absurd h (by simp)
        · rw [if_neg hw] at h
          simp only [Option.some.injEq, Prod.mk.injEq] at h
          refine ⟨pre, rest.takeWhile Char.isDigit, [], ?_, hdsne, hdig, hpre, Or.inl rfl⟩
          rw [← h.1]
          simp

theorem routeTok_shape (s t : List Char) (k : Nat) (h : routeTok s = some (t, k)) :
    RouteShape t := by
  rcases s with - | ⟨c, cs⟩
  · exact routeTokCore_shape [] [] t k (Or.inl rfl) h
  · simp only [routeTok] at h
    by_cases hup : c.isUpper = true
    · rw [if_pos hup] at h
      exact routeTokCore_shape [c] cs t k (Or.inr ⟨c, rfl, hup⟩) h
    · rw [if_neg hup] at h
      exact routeTokCore_shape [] (c :: cs) t k (Or.inl rfl) h

theorem routeScanGo_shape : ∀ (fuel : Nat) (pw : Bool) (s t : List Char),
    t ∈ routeScanGo fuel pw s → RouteShape t := by
  intro fuel
  induction fuel with
  | zero =>
    intro pw s t ht
    rcases s with - | ⟨c, cs⟩ <;> simp [routeScanGo] at ht
  | succ f ih =>
    intro pw s t ht
    rcases s with - | ⟨c, cs⟩
    · simp [routeScanGo] at ht
    · simp only [routeScanGo] at ht
      by_cases hpw : pw = true
      · rw [if_pos hpw] at ht
        exact ih _ _ _ ht
      · rw [if_neg hpw] at ht
        rcases htok : routeTok (c :: cs) with - | ⟨tk, k⟩
        · simp only [htok] at ht
          exact ih _ _ _ ht
        · simp only [htok] at ht
          rcases List.mem_cons.mp ht with rfl | hmem
          · exact routeTok_shape _ _ _ htok
          · exact ih _ _ _ hmem

theorem uniqueKeepFirst_aux_mem : ∀ (l acc : List (List Char)) (x : List Char),
    x ∈ l.foldl (fun acc x => if x ∈ acc then acc else acc ++ [x]) acc →
      x ∈ acc ∨ x ∈ l := by
  intro l
  induction l with
  | nil => intro acc x hx; exact Or.inl hx
  | cons y ys ih =>
    intro acc x hx
    simp only [List.foldl_cons] at hx
    rcases ih _ x hx with hx | hx
    · by_cases hy : y ∈ acc
      · rw [if_pos hy] at hx
        exact Or.inl hx
      · rw [if_neg hy] at hx
        rcases List.mem_append.mp hx with hx | hx
        · exact Or.inl hx
        · simp only [List.mem_singleton] at hx
          subst hx
          exact Or.inr (List.mem_cons_self _ _)
    · exact Or.inr (List.mem_cons_of_mem _ hx)

theorem mem_uniqueKeepFirst (l : List (List Char)) (x : List Char)
    (h : x ∈ uniqueKeepFirst l) : x ∈ l := by
  rcases uniqueKeepFirst_aux_mem l [] x h with hx | hx
  · exact absurd hx (List.not_mem_nil x)
  · exact hx

theorem uniqueKeepFirst_aux_nodup : ∀ (l acc : List (List Char)), acc.Nodup →
    (l.foldl (fun acc x => if x ∈ acc then acc else acc ++ [x]) acc).Nodup := by
  intro l
  induction l with
  | nil => intro acc h; exact h
  | cons y ys ih =>
    intro acc h
    simp only [List.foldl_cons]
    apply ih
    by_cases hy : y ∈ acc
    · rw [if_pos hy]
      exact h
    · rw [if_neg hy, ← List.concat_eq_append]
      exact h.concat hy

theorem uniqueKeepFirst_nodup (l : List (List Char)) : (uniqueKeepFirst l).Nodup :=
  uniqueKeepFirst_aux_nodup l [] List.nodup_nil

/-- The route extraction as the spec's step 4 words it for C7: scan the
normalized text before the out-of-service replacement, time formatting,
directional expansion and color substitutions. -/
def specRoutesPreSub (kr : List (List Char)) (e : Entity) : List (List Char) :=
  uniqueKeepFirst ((routeFindAll (normText (baseText (headerOf e) (descOf e)))).filter
    (fun r => decide (r ∈ kr)))

set_option maxRecDepth 20000 in
/-- C7, counterexample: in `Until 237 - use route` the pre-substitution
scan finds no known route (`237` is not one), but time formatting first
rewrites `237` into `2:37`, and the code's scan of the substituted text
then extracts the known route `2` — the set used for the emoji decisions
is not computed from the pre-substitution text. -/
theorem route_extraction_cex :
    specRoutesPreSub known_routes ⟨"1", ["Until 237 - use route"], []⟩ = [] ∧
      routesOf known_routes ⟨"1", ["Until 237 - use route"], []⟩ = ["2".data] ∧
      specRoutesPreSub known_routes ⟨"1", ["Until 237 - use route"], []⟩ ≠
        routesOf known_routes ⟨"1", ["Until 237 - use route"], []⟩ := by
  refine ⟨by decide, by decide, by decide⟩

/-- C7 as amended: the route set used for the emoji decisions is computed
by scanning the fully substituted candidate text — after the
out-of-service replacement, time formatting, directional expansion and the
color substitutions — for tokens of shape optional single uppercase
letter, one or more digits, optional single uppercase letter, keeping only
tokens in the configured known-route set, each distinct route once. -/
theorem route_extraction_post_sub (kr : List (List Char)) (e : Entity) :
    routesOf kr e =
      uniqueKeepFirst ((routeFindAll (colorSub (ibobSub (timeSub (oosReplace
          (normText (baseText (headerOf e) (descOf e)))))))).filter
        (fun r => decide (r ∈ kr))) ∧
      (∀ r ∈ routesOf kr e, r ∈ kr ∧ RouteShape r) ∧
      (routesOf kr e).Nodup := by
  refine ⟨rfl, ?_, uniqueKeepFirst_nodup _⟩
  intro r hr
  have hr2 := mem_uniqueKeepFirst _ _ hr
  rcases List.mem_filter.mp hr2 with ⟨hscan, hkr⟩
  refine ⟨by simpa using hkr, ?_⟩
  exact routeScanGo_shape _ _ _ _ hscan

/-! ### Route emoji placement (towards C8) and the long-candidate path (C10) -/

/-- The route-emoji annotation step as the amended C8 words it: with 1–2
extracted routes, the mode emoji is appended after every boundary
occurrence of each route in the candidate text; with none, or more than 2,
the text is left unchanged. -/
def specRouteEmojiEvery (emoji : Char) (routes : List (List Char)) (t : List Char) :
    List Char :=
  if 1 ≤ routes.length ∧ routes.length ≤ 2 then
    routes.foldl (fun acc r => subToks false [(r, r ++ ' ' :: [emoji])] acc) t
  else t

set_option maxRecDepth 20000 in
/-- C8, counterexample: with the single known route `61C` occurring twice,
the rendered post carries the mode emoji after BOTH occurrences — `re.sub`
replaces every boundary occurrence, not only the first. -/
theorem route_emoji_every_cex :
    format_alert known_routes ⟨"1", ["61C stop moved, 61C detour"], []⟩ ["bus"] =
        "61C 🚌 stop moved, 61C 🚌 detour".data ∧
      format_alert known_routes ⟨"1", ["61C stop moved, 61C detour"], []⟩ ["bus"] ≠
        "61C 🚌 stop moved, 61C detour".data := by
  refine ⟨by decide, by decide⟩

/-- C8 as amended: when between 1 and 2 known routes are extracted, the
mode emoji (`🚌` for a bus-primary alert, `🚊` otherwise) is appended
after EVERY boundary occurrence of each route in the candidate text; with
more than 2 distinct routes (or none) the candidate is unchanged. -/
theorem route_emoji_every_occurrence (kr : List (List Char)) (e : Entity)
    (fts : List String) :
    cand1Of kr e fts =
        specRouteEmojiEvery (modeEmojiOf fts) (routesOf kr e) (cand0Of e) ∧
      (2 < (routesOf kr e).length → cand1Of kr e fts = cand0Of e) ∧
      (routesOf kr e = [] → cand1Of kr e fts = cand0Of e) := by
  refine ⟨?_, ?_, ?_⟩
  · simp only [cand1Of, specRouteEmojiEvery]
    by_cases h : (routesOf kr e).length ≤ 2 ∧ 0 < (routesOf kr e).length
    · rw [if_pos h, if_pos ⟨h.2, h.1⟩]
    · rw [if_neg h, if_neg (fun hh => h ⟨hh.2, hh.1⟩)]
  · intro h
    simp only [cand1Of]
    rw [if_neg (fun hh => by omega)]
  · intro h
    simp only [cand1Of]
    rw [if_neg (fun hh => by rw [h] at hh; simp at hh)]

set_option maxRecDepth 40000 in
/-- C10: a bus-only alert mentioning the known route `61C` whose annotated
candidate exceeds 280 characters — the candidate (with its per-route
emojis) is rejected, yet the route set is non-empty so the `🚌` source
prefix is also suppressed, and the final post contains no mode emoji at
all. -/
theorem long_candidate_drops_mode_emoji :
    routesOf known_routes ⟨"9", ["61C detour in effect. Riders should plan ahead and follow posted signage while crews complete the work. Expect longer waits and allow extra travel time for the remainder of the week. Service resumes on the normal schedule when crews finish and supervisors confirm the corridor reopens."], []⟩ ≠ [] ∧
      280 < (cand1Of known_routes ⟨"9", ["61C detour in effect. Riders should plan ahead and follow posted signage while crews complete the work. Expect longer waits and allow extra travel time for the remainder of the week. Service resumes on the normal schedule when crews finish and supervisors confirm the corridor reopens."], []⟩ ["bus"]).length ∧
      feedEmojiOf known_routes ⟨"9", ["61C detour in effect. Riders should plan ahead and follow posted signage while crews complete the work. Expect longer waits and allow extra travel time for the remainder of the week. Service resumes on the normal schedule when crews finish and supervisors confirm the corridor reopens."], []⟩ ["bus"] = [] ∧
      (format_alert known_routes ⟨"9", ["61C detour in effect. Riders should plan ahead and follow posted signage while crews complete the work. Expect longer waits and allow extra travel time for the remainder of the week. Service resumes on the normal schedule when crews finish and supervisors confirm the corridor reopens."], []⟩ ["bus"]).all
        (fun c => !(c == '🚌' || c == '🚊')) = true := by
  refine ⟨by decide, by decide, by decide, by decide⟩

end PRTBot
